import Mathlib

/-!
Shallow embedding of the `rc` lexical-analysis front end.

The input text is modelled as a `List Char` of Unicode codepoints.  Rust's
`str::len` and `Chars::as_str().len()` return UTF-8 *byte* counts, which the
embedding mirrors with `utf8Len` (built on `Char.utf8Size`).

Two cursor types are embedded:
 - `Rc.Cursor` is the cursor of `src/lexer/cursor.rs` (the one with
   `len_consumed` / `reset_len_consumed`, used by the tokenizer).
 - `Rc.Cursor0` is the cursor of `src/cursor.rs` (the one whose `len` field
   caches a remaining-length counter).

The external crate `unicode_xid` is not part of the repository; the tokenizer
is therefore parameterized by the two table predicates `xid_start` and
`xid_continue` that `is_id_start` / `is_id_continue` delegate to.
-/

namespace Rc

/-- UTF-8 byte length of a codepoint sequence; mirrors Rust's `str::len` on
the string holding exactly these codepoints. -/
def utf8Len (l : List Char) : Nat :=
  (l.map Char.utf8Size).sum

/-- The end-of-input sentinel `EOF_CHAR` defined in both cursor files. -/
def EOF_CHAR : Char := '\x00'

/-! ## The cursor of `src/lexer/cursor.rs` -/

/-- Cursor of `src/lexer/cursor.rs`: `initial_len` is the byte length recorded
at the last reset, `chars` the remaining codepoints (Rust's `Chars` iterator),
`prev` the last consumed codepoint. -/
structure Cursor where
  initial_len : Nat
  chars : List Char
  prev : Char
deriving DecidableEq, Repr

/-- `Cursor::new` of `src/lexer/cursor.rs`: `initial_len` is `input.len()`,
i.e. the UTF-8 byte length of the input. -/
def Cursor.new (input : List Char) : Cursor :=
  ⟨utf8Len input, input, '\x00'⟩

/-- `Cursor::is_empty` of `src/lexer/cursor.rs`:
`self.chars.as_str().len() == 0`, i.e. the remaining byte length is zero. -/
def Cursor.is_empty (c : Cursor) : Bool :=
  utf8Len c.chars == 0

/-- `Cursor::len_consumed` of `src/lexer/cursor.rs`:
`self.initial_len - self.chars.as_str().len()` (byte counts). -/
def Cursor.len_consumed (c : Cursor) : Nat :=
  c.initial_len - utf8Len c.chars

/-- `Cursor::reset_len_consumed` of `src/lexer/cursor.rs`. -/
def Cursor.reset_len_consumed (c : Cursor) : Cursor :=
  { c with initial_len := utf8Len c.chars }

/-- `Cursor::adv` of `src/lexer/cursor.rs`: consume one codepoint and record
it in `prev`; return `none` (Rust `None`) leaving the state unchanged when the
iterator is exhausted. -/
def Cursor.adv (c : Cursor) : Option Char × Cursor :=
  match c.chars with
  | [] => (none, c)
  | ch :: rest => (some ch, { c with chars := rest, prev := ch })

/-- `Cursor::peek` of `src/lexer/cursor.rs`: `next` on a clone of the iterator,
`EOF_CHAR` when nothing remains. -/
def Cursor.peek (c : Cursor) : Char :=
  match c.chars with
  | [] => EOF_CHAR
  | ch :: _ => ch

/-- The body of `Cursor::peek` with the receiver state returned explicitly
alongside the result.  The Rust method takes `&self` and only clones the
character iterator, advancing the clone; accordingly both branches return the
receiver unchanged. -/
def Cursor.peekSt (c : Cursor) : Char × Cursor :=
  match c.chars with
  | [] => (EOF_CHAR, c)
  | ch :: _ => (ch, c)

/-- Loop of `Cursor::adv_until` of `src/lexer/cursor.rs`, acting on the
`(chars, prev)` components (the only state the loop touches):
`while condition(self.peek()) && !self.is_empty() { self.adv(); }`.
With `chars = []` the guard fails (`is_empty` holds) and the loop exits;
otherwise `peek` is the head and `adv` moves it into `prev`. -/
def advUntilGo (condition : Char → Bool) : List Char → Char → List Char × Char
  | [], prev => ([], prev)
  | ch :: rest, prev =>
    if condition ch then advUntilGo condition rest ch else (ch :: rest, prev)

/-- `Cursor::adv_until` of `src/lexer/cursor.rs`. -/
def Cursor.adv_until (c : Cursor) (condition : Char → Bool) : Cursor :=
  { c with chars := (advUntilGo condition c.chars c.prev).1,
           prev := (advUntilGo condition c.chars c.prev).2 }

/-! ## The token data model of `src/lexer.rs` -/

/-- `LiteralKind` of `src/lexer.rs`. -/
inductive LiteralKind where
  | Str (terminated : Bool)
deriving DecidableEq, Repr

/-- `TokenKind` of `src/lexer.rs`. -/
inductive TokenKind where
  | Whitespace
  | Identifier
  | Literal (kind : LiteralKind)
  | Semi
  | OpenParen
  | CloseParen
  | OpenBrace
  | CloseBrace
  | Exclam
  | Unknown
deriving DecidableEq, Repr

/-- `Token` of `src/lexer.rs`. -/
structure Token where
  kind : TokenKind
  len : Nat
deriving DecidableEq, Repr

/-- `Token::new` of `src/lexer.rs`. -/
def Token.new (kind : TokenKind) (len : Nat) : Token :=
  ⟨kind, len⟩

/-! ## Classification predicates of `src/lexer.rs` -/

/-- `is_id_start` of `src/lexer.rs`:
`c == '_' || unicode_xid::UnicodeXID::is_xid_start(c)`.  The external
`unicode_xid` table is passed in as the parameter `xid_start`. -/
def is_id_start (xid_start : Char → Bool) (c : Char) : Bool :=
  if c == '_' || xid_start c then true else false

/-- `is_id_continue` of `src/lexer.rs`:
`unicode_xid::UnicodeXID::is_xid_continue(c)`, the external table passed in as
the parameter `xid_continue`. -/
def is_id_continue (xid_continue : Char → Bool) (c : Char) : Bool :=
  xid_continue c

/-- `is_whitespace` of `src/lexer.rs`: exactly tab, newline or space. -/
def is_whitespace (c : Char) : Bool :=
  c == '\t' || c == '\n' || c == ' '

/-! ## The single-token scan of `src/lexer.rs` -/

/-- `Cursor::eat_whitespace` of `src/lexer.rs`: `adv_until(is_whitespace)`,
kind `Whitespace`. -/
def Cursor.eat_whitespace (c : Cursor) : TokenKind × Cursor :=
  (TokenKind.Whitespace, c.adv_until is_whitespace)

/-- `Cursor::eat_id_continue` of `src/lexer.rs`: `adv_until(is_id_continue)`,
kind `Identifier`. -/
def Cursor.eat_id_continue (xid_continue : Char → Bool) (c : Cursor) :
    TokenKind × Cursor :=
  (TokenKind.Identifier, c.adv_until (is_id_continue xid_continue))

/-- Loop of `Cursor::eat_double_quote_str` of `src/lexer.rs`, acting on the
`(chars, prev)` components: repeatedly `adv`; on `None` break with `false`
(state unchanged), on `Some of a quote` return `true`, else continue. -/
def eatDqGo : List Char → Char → Bool × List Char × Char
  | [], prev => (false, [], prev)
  | ch :: rest, _ =>
    if ch == '"' then (true, rest, ch) else eatDqGo rest ch

/-- `Cursor::eat_double_quote_str` of `src/lexer.rs`. -/
def Cursor.eat_double_quote_str (c : Cursor) : Bool × Cursor :=
  ((eatDqGo c.chars c.prev).1,
   { c with chars := (eatDqGo c.chars c.prev).2.1,
            prev := (eatDqGo c.chars c.prev).2.2 })

/-- `Cursor::eat_token` of `src/lexer.rs`.  The leading `self.adv().unwrap()`
panics on an empty cursor; the embedding returns `none` there (the caller
contract of §4.2 forbids that call).  Otherwise the first codepoint is
dispatched exactly as the Rust `match`, and the token carries
`self.len_consumed()`. -/
def Cursor.eat_token (xid_start xid_continue : Char → Bool) (c : Cursor) :
    Option (Token × Cursor) :=
  match c.adv with
  | (none, _) => none
  | (some first_char, c0) =>
    let r : TokenKind × Cursor :=
      if is_whitespace first_char then c0.eat_whitespace
      else if is_id_start xid_start first_char then c0.eat_id_continue xid_continue
      else if first_char == '"' then
        ((TokenKind.Literal (LiteralKind.Str c0.eat_double_quote_str.1)),
         c0.eat_double_quote_str.2)
      else if first_char == ';' then (TokenKind.Semi, c0)
      else if first_char == '(' then (TokenKind.OpenParen, c0)
      else if first_char == ')' then (TokenKind.CloseParen, c0)
      else if first_char == '\x7b' then (TokenKind.OpenBrace, c0)
      else if first_char == '\x7d' then (TokenKind.CloseBrace, c0)
      else if first_char == '!' then (TokenKind.Exclam, c0)
      else (TokenKind.Unknown, c0)
    some (Token.new r.1 r.2.len_consumed, r.2)

/-- Loop of `tokenize` of `src/lexer.rs`: while the cursor is nonempty, reset
the consumed-length baseline and eat one token.  The `fuel` argument bounds
the iteration count of the unbounded Rust iterator; since every `eat_token`
on a nonempty cursor consumes at least one codepoint, fuel equal to the
remaining codepoint count is sufficient (`tokenizeFuel_congr` below shows the
result does not depend on the fuel beyond that bound). -/
def tokenizeFuel (xid_start xid_continue : Char → Bool) :
    Nat → Cursor → List Token
  | 0, _ => []
  | fuel + 1, c =>
    if c.is_empty then []
    else
      match c.reset_len_consumed.eat_token xid_start xid_continue with
      | none => []
      | some (t, c2) => t :: tokenizeFuel xid_start xid_continue fuel c2

/-- `tokenize` of `src/lexer.rs`. -/
def tokenize (xid_start xid_continue : Char → Bool) (input : List Char) :
    List Token :=
  tokenizeFuel xid_start xid_continue input.length (Cursor.new input)

/-! ## The cursor of `src/cursor.rs` -/

/-- Cursor of `src/cursor.rs`: the `len` field is initialized to the *byte*
length of the input and decremented by one per consumed *codepoint*. -/
structure Cursor0 where
  len : Nat
  chars : List Char
  prev : Char
deriving DecidableEq, Repr

/-- `Cursor::new` of `src/cursor.rs`: `len` is `input.len()`, the UTF-8 byte
length. -/
def Cursor0.new (input : List Char) : Cursor0 :=
  ⟨utf8Len input, input, '\x00'⟩

/-- `Cursor::is_empty` of `src/cursor.rs`: `self.len == 0`. -/
def Cursor0.is_empty (c : Cursor0) : Bool :=
  c.len == 0

/-- `Cursor::adv` of `src/cursor.rs`: consume one codepoint, decrement `len`,
record `prev`; `none` with the state unchanged when the iterator is
exhausted. -/
def Cursor0.adv (c : Cursor0) : Option Char × Cursor0 :=
  match c.chars with
  | [] => (none, c)
  | ch :: rest => (some ch, ⟨c.len - 1, rest, ch⟩)

/-- `Cursor::peek` of `src/cursor.rs` (same body as the lexer cursor's). -/
def Cursor0.peek (c : Cursor0) : Char :=
  match c.chars with
  | [] => EOF_CHAR
  | ch :: _ => ch

/-- The body of `Cursor::peek` of `src/cursor.rs` with the receiver state
returned explicitly (the method takes `&self` and only clones the iterator). -/
def Cursor0.peekSt (c : Cursor0) : Char × Cursor0 :=
  match c.chars with
  | [] => (EOF_CHAR, c)
  | ch :: _ => (ch, c)

/-- One-step-at-a-time unfolding of `Cursor::adv_until` of `src/cursor.rs`:
`while condition(self.peek()) && !self.is_empty() { self.adv(); }`.
`none` means the loop is still running after `fuel` iterations; the Rust
loop has no other exit, so `∀ fuel, ... = none` is divergence. -/
def Cursor0.advUntilFuel (condition : Char → Bool) :
    Nat → Cursor0 → Option Cursor0
  | 0, _ => none
  | fuel + 1, c =>
    if condition c.peek && !c.is_empty then
      Cursor0.advUntilFuel condition fuel c.adv.2
    else some c

/-- `Cursor::adv_until` of `src/cursor.rs`, run with fuel
`chars.length + 1`, which is enough to reach the loop's decision point: each
iteration either exits or consumes a codepoint, until `chars` is exhausted
(after which the state no longer changes, so a larger fuel adds nothing). -/
def Cursor0.adv_until (c : Cursor0) (condition : Char → Bool) : Option Cursor0 :=
  Cursor0.advUntilFuel condition (c.chars.length + 1) c

/-! ## Observation traces over the two cursors -/

/-- A state-changing cursor call (`peek` is stateless, see `Rc.peek_no_mutation`,
so traces of `adv` and `adv_until` calls cover all reachable states). -/
inductive COp where
  | adv
  | advUntil (condition : Char → Bool)

/-- Run a trace of calls on the `src/lexer/cursor.rs` cursor. -/
def Cursor.runOps : List COp → Cursor → Cursor
  | [], c => c
  | COp.adv :: ops, c => Cursor.runOps ops c.adv.2
  | COp.advUntil p :: ops, c => Cursor.runOps ops (c.adv_until p)

/-- Run a trace of calls on the `src/cursor.rs` cursor; `none` when an
`adv_until` call diverges. -/
def Cursor0.runOps : List COp → Cursor0 → Option Cursor0
  | [], c => some c
  | COp.adv :: ops, c => Cursor0.runOps ops c.adv.2
  | COp.advUntil p :: ops, c =>
    match c.adv_until p with
    | none => none
    | some c2 => Cursor0.runOps ops c2

/-! ## Example instantiations of the external `unicode_xid` tables

These agree with the Unicode `XID_Start` / `XID_Continue` tables on every
codepoint they are applied to in the concrete statements below: ASCII letters
and digits, `é` (U+00E9, a lowercase letter, in both tables), underscore
(in `XID_Continue` only), and the ASCII punctuation, whitespace, quote, `©`
(U+00A9) and NUL codepoints (in neither table). -/

/-- Sample `XID_Start` table fragment: ASCII letters and `é`. -/
def xidStartEx (c : Char) : Bool :=
  c.isAlpha || c == 'é'

/-- Sample `XID_Continue` table fragment: ASCII letters and digits,
underscore, and `é`. -/
def xidContEx (c : Char) : Bool :=
  c.isAlphanum || c == '_' || c == 'é'

/-- What the scan consumes past the opening quote of a string literal: every
codepoint up to and including the first double-quote, or everything when no
double-quote remains. -/
def dropPastQuote : List Char → List Char
  | [] => []
  | ch :: rest => if ch == '"' then rest else dropPastQuote rest

/-! ## Basic lemmas -/

theorem utf8Len_nil : utf8Len [] = 0 := rfl

theorem utf8Len_cons (ch : Char) (l : List Char) :
    utf8Len (ch :: l) = ch.utf8Size + utf8Len l := by
  simp [utf8Len]

theorem utf8Len_eq_zero {l : List Char} : utf8Len l = 0 ↔ l = [] := by
  cases l with
  | nil => simp [utf8Len]
  | cons ch rest =>
    simp only [utf8Len_cons]
    constructor
    · intro h
      exact absurd h (by have := Char.utf8Size_pos ch; omega)
    · intro h
      exact absurd h (by simp)

theorem is_empty_iff (c : Cursor) : c.is_empty = true ↔ c.chars = [] := by
  simp [Cursor.is_empty, utf8Len_eq_zero]

theorem length_dropWhile_le (p : Char → Bool) :
    ∀ l : List Char, (l.dropWhile p).length ≤ l.length := by
  intro l
  induction l with
  | nil => simp
  | cons ch rest ih =>
    by_cases h : p ch
    · simp only [List.dropWhile_cons, h, if_true]
      exact Nat.le_succ_of_le ih
    · simp [List.dropWhile_cons, h]

theorem utf8Len_dropWhile_le (p : Char → Bool) :
    ∀ l : List Char, utf8Len (l.dropWhile p) ≤ utf8Len l := by
  intro l
  induction l with
  | nil => simp
  | cons ch rest ih =>
    by_cases h : p ch
    · simp only [List.dropWhile_cons, h, if_true, utf8Len_cons]
      omega
    · simp [List.dropWhile_cons, h]

theorem length_dropPastQuote_le :
    ∀ l : List Char, (dropPastQuote l).length ≤ l.length := by
  intro l
  induction l with
  | nil => simp [dropPastQuote]
  | cons ch rest ih =>
    by_cases h : ch == '"'
    · simp [dropPastQuote, h, Nat.le_succ]
    · simp only [dropPastQuote, h, if_false, Bool.false_eq_true]
      exact Nat.le_succ_of_le ih

theorem utf8Len_dropPastQuote_le :
    ∀ l : List Char, utf8Len (dropPastQuote l) ≤ utf8Len l := by
  intro l
  induction l with
  | nil => simp [dropPastQuote]
  | cons ch rest ih =>
    by_cases h : ch == '"'
    · simp only [dropPastQuote, h, if_true, utf8Len_cons]
      omega
    · simp only [dropPastQuote, h, if_false, Bool.false_eq_true, utf8Len_cons]
      omega

theorem advUntilGo_fst (p : Char → Bool) :
    ∀ (l : List Char) (prev : Char), (advUntilGo p l prev).1 = l.dropWhile p := by
  intro l
  induction l with
  | nil => intro prev; rfl
  | cons ch rest ih =>
    intro prev
    by_cases h : p ch
    · simp [advUntilGo, h, List.dropWhile_cons, ih]
    · simp [advUntilGo, h, List.dropWhile_cons]

theorem adv_until_chars (c : Cursor) (p : Char → Bool) :
    (c.adv_until p).chars = c.chars.dropWhile p := by
  simp [Cursor.adv_until, advUntilGo_fst]

theorem adv_until_initial_len (c : Cursor) (p : Char → Bool) :
    (c.adv_until p).initial_len = c.initial_len := rfl

theorem eatDqGo_fst :
    ∀ (l : List Char) (prev : Char), (eatDqGo l prev).1 = l.contains '"' := by
  intro l
  induction l with
  | nil => intro prev; rfl
  | cons ch rest ih =>
    intro prev
    by_cases h : ch == '"'
    · have hch : ch = '"' := beq_iff_eq.mp h
      subst hch
      simp [eatDqGo, List.contains_cons]
    · have hch : ¬ch = '"' := fun he => h (by simp [he])
      have h2 : ('"' == ch) = false :=
        beq_eq_false_iff_ne.mpr fun he => hch he.symm
      simp only [eatDqGo, h, if_false, Bool.false_eq_true, ih, List.contains_cons]
      rw [h2, Bool.false_or]

theorem eatDqGo_chars :
    ∀ (l : List Char) (prev : Char), (eatDqGo l prev).2.1 = dropPastQuote l := by
  intro l
  induction l with
  | nil => intro prev; rfl
  | cons ch rest ih =>
    intro prev
    by_cases h : ch == '"'
    · simp [eatDqGo, dropPastQuote, h]
    · simp [eatDqGo, dropPastQuote, h, ih]

theorem eat_double_quote_str_spec (c : Cursor) :
    c.eat_double_quote_str.1 = c.chars.contains '"' ∧
      c.eat_double_quote_str.2.chars = dropPastQuote c.chars ∧
      c.eat_double_quote_str.2.initial_len = c.initial_len := by
  refine ⟨?_, ?_, rfl⟩
  · simp [Cursor.eat_double_quote_str, eatDqGo_fst]
  · simp [Cursor.eat_double_quote_str, eatDqGo_chars]

/-- Shape of a successful single-token scan: on a nonempty cursor `eat_token`
succeeds, keeps the baseline `initial_len`, consumes at least the first
codepoint (the result holds a suffix of `rest` both in codepoint count and in
bytes), and the token's `len` is the byte count consumed since the baseline. -/
theorem eat_token_shape (xs xc : Char → Bool) (c : Cursor) (first : Char)
    (rest : List Char) (h : c.chars = first :: rest) :
    ∃ t c2, c.eat_token xs xc = some (t, c2) ∧
      c2.initial_len = c.initial_len ∧
      c2.chars.length ≤ rest.length ∧
      utf8Len c2.chars ≤ utf8Len rest ∧
      t.len = c.initial_len - utf8Len c2.chars := by
  obtain ⟨il, cs, pv⟩ := c
  simp only at h
  subst h
  cases hws : is_whitespace first with
  | true =>
    have he : Cursor.eat_token xs xc ⟨il, first :: rest, pv⟩ =
        some (Token.new TokenKind.Whitespace
                (Cursor.adv_until ⟨il, rest, first⟩ is_whitespace).len_consumed,
              Cursor.adv_until ⟨il, rest, first⟩ is_whitespace) := by
      simp [Cursor.eat_token, Cursor.adv, hws, Cursor.eat_whitespace]
    refine ⟨_, _, he, rfl, ?_, ?_, rfl⟩
    · rw [adv_until_chars]
      exact length_dropWhile_le _ _
    · rw [adv_until_chars]
      exact utf8Len_dropWhile_le _ _
  | false =>
    cases hid : is_id_start xs first with
    | true =>
      have he : Cursor.eat_token xs xc ⟨il, first :: rest, pv⟩ =
          some (Token.new TokenKind.Identifier
                  (Cursor.adv_until ⟨il, rest, first⟩
                    (is_id_continue xc)).len_consumed,
                Cursor.adv_until ⟨il, rest, first⟩ (is_id_continue xc)) := by
        simp [Cursor.eat_token, Cursor.adv, hws, hid, Cursor.eat_id_continue]
      refine ⟨_, _, he, rfl, ?_, ?_, rfl⟩
      · rw [adv_until_chars]
        exact length_dropWhile_le _ _
      · rw [adv_until_chars]
        exact utf8Len_dropWhile_le _ _
    | false =>
      cases hq : first == '"' with
      | true =>
        have he : Cursor.eat_token xs xc ⟨il, first :: rest, pv⟩ =
            some (Token.new
                    (TokenKind.Literal (LiteralKind.Str
                      (Cursor.eat_double_quote_str ⟨il, rest, first⟩).1))
                    (Cursor.eat_double_quote_str ⟨il, rest, first⟩).2.len_consumed,
                  (Cursor.eat_double_quote_str ⟨il, rest, first⟩).2) := by
          simp [Cursor.eat_token, Cursor.adv, hws, hid, hq]
        obtain ⟨-, hch, hil⟩ := eat_double_quote_str_spec ⟨il, rest, first⟩
        refine ⟨_, _, he, hil, ?_, ?_, rfl⟩
        · rw [hch]
          exact length_dropPastQuote_le _
        · rw [hch]
          exact utf8Len_dropPastQuote_le _
      | false =>
        have he : ∃ K, Cursor.eat_token xs xc ⟨il, first :: rest, pv⟩ =
            some (Token.new K (Cursor.len_consumed ⟨il, rest, first⟩),
                  (⟨il, rest, first⟩ : Cursor)) := by
          simp only [Cursor.eat_token, Cursor.adv, hws, hid, hq, if_false,
            Bool.false_eq_true]
          split_ifs <;> exact ⟨_, rfl⟩
        obtain ⟨K, he⟩ := he
        exact ⟨_, _, he, rfl, Nat.le_refl _, Nat.le_refl _, rfl⟩

/-- Sum of the token `len`s produced by the driving loop, for any fuel at
least the remaining codepoint count. -/
theorem tokenizeFuel_sum (xs xc : Char → Bool) (fuel : Nat) :
    ∀ c : Cursor, c.chars.length ≤ fuel →
      ((tokenizeFuel xs xc fuel c).map Token.len).sum = utf8Len c.chars := by
  induction fuel with
  | zero =>
    intro c h
    have hc : c.chars = [] := List.length_eq_zero.mp (Nat.le_zero.mp h)
    simp [tokenizeFuel, hc, utf8Len]
  | succ fuel ih =>
    intro c h
    cases he : c.is_empty with
    | true =>
      have hc : c.chars = [] := (is_empty_iff c).mp he
      simp [tokenizeFuel, he, hc, utf8Len]
    | false =>
      have hc : c.chars ≠ [] := by
        intro hnil
        rw [(is_empty_iff c).mpr hnil] at he
        cases he
      obtain ⟨first, rest, hcons⟩ := List.exists_cons_of_ne_nil hc
      have hrc : c.reset_len_consumed.chars = first :: rest := hcons
      obtain ⟨t, c2, he2, hinit, hlen, hutf, htlen⟩ :=
        eat_token_shape xs xc c.reset_len_consumed first rest hrc
      have hil : c.reset_len_consumed.initial_len = utf8Len c.chars := rfl
      have hsum := ih c2 (by
        have : c.chars.length = rest.length + 1 := by rw [hcons]; rfl
        omega)
      simp only [tokenizeFuel, he, if_false, Bool.false_eq_true, he2,
        List.map_cons, List.sum_cons, hsum]
      have hle : utf8Len c2.chars ≤ utf8Len c.chars := by
        have : utf8Len c.chars = first.utf8Size + utf8Len rest := by
          rw [hcons, utf8Len_cons]
        omega
      rw [htlen, hil]
      omega

/-- The fuelled driving loop does not depend on the fuel once the fuel is at
least the remaining codepoint count: the fuel is an artifact of embedding the
unbounded iterator, not part of the behaviour. -/
theorem tokenizeFuel_congr (xs xc : Char → Bool) (fuel : Nat) :
    ∀ (fuel' : Nat) (c : Cursor), c.chars.length ≤ fuel → c.chars.length ≤ fuel' →
      tokenizeFuel xs xc fuel c = tokenizeFuel xs xc fuel' c := by
  induction fuel with
  | zero =>
    intro fuel' c h h'
    have hc : c.chars = [] := List.length_eq_zero.mp (Nat.le_zero.mp h)
    have he : c.is_empty = true := (is_empty_iff c).mpr hc
    cases fuel' with
    | zero => rfl
    | succ fuel' => simp [tokenizeFuel, he]
  | succ fuel ih =>
    intro fuel' c h h'
    cases he : c.is_empty with
    | true =>
      cases fuel' with
      | zero => simp [tokenizeFuel, he]
      | succ fuel' => simp [tokenizeFuel, he]
    | false =>
      have hc : c.chars ≠ [] := by
        intro hnil
        rw [(is_empty_iff c).mpr hnil] at he
        cases he
      obtain ⟨first, rest, hcons⟩ := List.exists_cons_of_ne_nil hc
      cases fuel' with
      | zero =>
        exact absurd (by rw [hcons] at h'; exact h') (by simp)
      | succ fuel' =>
        obtain ⟨t, c2, he2, -, hlen, -, -⟩ :=
          eat_token_shape xs xc c.reset_len_consumed first rest hcons
        have hrec := ih fuel' c2
          (by rw [hcons] at h; simp at h; omega)
          (by rw [hcons] at h'; simp at h'; omega)
        simp [tokenizeFuel, he, he2, hrec]

/-! ## Claim C1 -/

/-- Claim C1 (amended): for every input and every pair of identifier tables,
the sum of the `len` fields of the tokens produced by `tokenize` equals the
total UTF-8 *byte* count of the input — each token's `len` is the byte length
of the span it covers, which coincides with its codepoint count exactly when
those codepoints are single-byte. -/
theorem tokenize_len_sum_eq_utf8Len (xs xc : Char → Bool) (input : List Char) :
    ((tokenize xs xc input).map Token.len).sum = utf8Len input :=
  tokenizeFuel_sum xs xc input.length (Cursor.new input) (Nat.le_refl _)

/-- Claim C1, counterexample to the codepoint-count reading: on the
single-codepoint input `©` (two bytes in UTF-8, in no recognized class, and
outside the Unicode `XID_Start` table, as the sample table reflects) the
produced `len`s sum to 2, not to the input's codepoint count 1. -/
theorem tokenize_len_sum_ne_codepoint_count :
    ((tokenize xidStartEx xidContEx ['©']).map Token.len).sum ≠
      (['©'] : List Char).length := by
  decide

/-! ## Claim C2 -/

/-- Claim C2: when the first codepoint of a token is a double-quote (and the
external table does not class the double-quote as an identifier start, which
the Unicode table does not), `eat_token` yields a string-literal token that is
`terminated` precisely when another double-quote occurs in the remaining
input, consuming up to and including that quote — or all remaining input when
no quote remains.  No codepoint is treated specially by the scan, so a
backslash is ordinary content and an escaped quote terminates the literal. -/
theorem eat_token_double_quote_spec (xs xc : Char → Bool) (c : Cursor)
    (rest : List Char) (hchars : c.chars = '"' :: rest)
    (hxs : xs '"' = false) :
    ((c.eat_token xs xc).map fun p => p.1.kind) =
      some (TokenKind.Literal (LiteralKind.Str (rest.contains '"'))) ∧
    ((c.eat_token xs xc).map fun p => p.2.chars) = some (dropPastQuote rest) := by
  obtain ⟨il, cs, pv⟩ := c
  simp only at hchars
  subst hchars
  have hws : is_whitespace '"' = false := by decide
  have hid : is_id_start xs '"' = false := by
    simp [is_id_start, hxs]
  constructor <;>
    simp [Cursor.eat_token, Cursor.adv, hws, hid, Cursor.eat_double_quote_str,
      eatDqGo_fst, eatDqGo_chars, Token.new]

/-- Witness for `eat_token_double_quote_spec` at the input `"a\"b`: the
backslash is ordinary content, so the backslash-escaped quote terminates the
literal (`terminated = true`), the scan consumes through that quote, and `b`
remains unconsumed. -/
theorem eat_token_double_quote_spec_witness :
    (((Cursor.new ['"', 'a', '\\', '"', 'b']).eat_token xidStartEx xidContEx).map
        fun p => p.1.kind) =
      some (TokenKind.Literal (LiteralKind.Str true)) ∧
    (((Cursor.new ['"', 'a', '\\', '"', 'b']).eat_token xidStartEx xidContEx).map
        fun p => p.2.chars) = some ['b'] := by
  obtain ⟨h1, h2⟩ := eat_token_double_quote_spec xidStartEx xidContEx
    (Cursor.new ['"', 'a', '\\', '"', 'b']) ['a', '\\', '"', 'b'] rfl (by decide)
  constructor
  · rw [h1]
    decide
  · rw [h2]
    decide

/-! ## Claim C3 -/

/-- Claim C3 (code bug in `src/cursor.rs`): after consuming the single
two-byte codepoint `¢`, zero codepoints remain, yet `is_empty` of
`src/cursor.rs` returns `false` — its `len` field was initialized to the
input's byte length 2 and is decremented once per consumed codepoint.  The
sibling implementation in `src/lexer/cursor.rs` answers `true` on the same
history, matching the claim. -/
theorem cursor0_is_empty_false_when_exhausted :
    ((Cursor0.new ['¢']).adv.2.chars = [] ∧
        (Cursor0.new ['¢']).adv.2.is_empty = false) ∧
      (Cursor.new ['¢']).adv.2.is_empty = true := by
  decide

/-! ## Claim C4 -/

/-- In the stuck state of `src/cursor.rs`'s `adv_until` (character iterator
exhausted but `len` still positive), the loop guard holds for the always-true
predicate and the loop body does not change the state — `adv` returns `None`
without touching anything — so no amount of fuel finishes the loop. -/
theorem advUntilFuel_stuck (fuel : Nat) :
    Cursor0.advUntilFuel (fun _ => true) fuel ⟨1, [], '¢'⟩ = none := by
  induction fuel with
  | zero => rfl
  | succ fuel ih =>
    simpa [Cursor0.advUntilFuel, Cursor0.peek, Cursor0.is_empty, Cursor0.adv]
      using ih

/-- Claim C4 (code bug in `src/cursor.rs`): `adv_until` called on the cursor
over the single two-byte codepoint `¢` with a predicate that is true
everywhere (in particular on the end-of-input sentinel) never exits its loop:
after `¢` is consumed the iterator is exhausted while the byte-initialized
`len` counter is still 1, so `is_empty` stays `false`, the guard stays true,
and `adv` no longer changes the state.  No fuel bound makes the loop
terminate, against the claim that the emptiness check always bounds it.
(The `adv_until` of `src/lexer/cursor.rs` does satisfy the claim: see
`adv_until_chars`, its result drops exactly the maximal satisfying run.) -/
theorem cursor0_adv_until_diverges (fuel : Nat) :
    Cursor0.advUntilFuel (fun _ => true) fuel (Cursor0.new ['¢']) = none := by
  cases fuel with
  | zero => rfl
  | succ fuel =>
    have hstep : (Cursor0.new ['¢']).adv.2 = (⟨1, [], '¢'⟩ : Cursor0) := by
      decide
    have hg : ((fun _ => true) (Cursor0.new ['¢']).peek
        && !(Cursor0.new ['¢']).is_empty) = true := by
      decide
    simp only [Cursor0.advUntilFuel, hg, if_true, hstep]
    exact advUntilFuel_stuck fuel

/-! ## Claim C5 -/

/-- Claim C5 (amended): for a first codepoint that is not whitespace, not an
identifier start, not a double-quote and not one of the punctuation
codepoints, the single-token scan (from a freshly reset baseline, as the
driving loop guarantees) always succeeds and produces a token of kind
`Unknown` whose `len` is the UTF-8 byte length of that codepoint — 1 exactly
when the codepoint is single-byte. -/
theorem eat_token_unknown_spec (xs xc : Char → Bool) (c : Cursor)
    (first : Char) (rest : List Char)
    (hchars : c.chars = first :: rest)
    (hreset : c.initial_len = utf8Len c.chars)
    (hws : is_whitespace first = false)
    (hid : is_id_start xs first = false)
    (hq : (first == '"') = false)
    (hsemi : (first == ';') = false)
    (hop : (first == '(') = false)
    (hcp : (first == ')') = false)
    (hob : (first == '\x7b') = false)
    (hcb : (first == '\x7d') = false)
    (hex : (first == '!') = false) :
    c.eat_token xs xc =
      some (Token.new TokenKind.Unknown first.utf8Size,
            ⟨c.initial_len, rest, first⟩) := by
  obtain ⟨il, cs, pv⟩ := c
  simp only at hchars hreset
  subst hchars
  subst hreset
  simp [Cursor.eat_token, Cursor.adv, hws, hid, hq, hsemi, hop, hcp, hob, hcb,
    hex, Cursor.len_consumed, Token.new, utf8Len_cons]

/-- Witness for `eat_token_unknown_spec` at the single-byte codepoint `#`:
the scan yields `Unknown` with `len` 1. -/
theorem eat_token_unknown_spec_witness :
    (Cursor.new ['#']).eat_token xidStartEx xidContEx =
      some (Token.new TokenKind.Unknown 1, ⟨1, [], '#'⟩) := by
  have h := eat_token_unknown_spec xidStartEx xidContEx (Cursor.new ['#']) '#' []
    rfl rfl (by decide) (by decide) (by decide) (by decide) (by decide)
    (by decide) (by decide) (by decide) (by decide)
  rw [h]
  decide

/-- Claim C5, counterexample to "len exactly 1": the codepoint `©` is in none
of the recognized classes (it is outside Unicode `XID_Start`, as the sample
table reflects), yet its token has `len` 2, the UTF-8 byte length of `©`. -/
theorem eat_token_unknown_len_two :
    tokenize xidStartEx xidContEx ['©'] = [Token.new TokenKind.Unknown 2] ∧
      Token.new TokenKind.Unknown 2 ≠ Token.new TokenKind.Unknown 1 := by
  decide

/-! ## Claim C6 -/

/-- The punctuation class of the dispatch in `eat_token`: the six
single-codepoint reserved characters of its `match`. -/
def isPunct (c : Char) : Bool :=
  c == ';' || c == '(' || c == ')' || c == '\x7b' || c == '\x7d' || c == '!'

/-- Number of the five dispatch classes of §4.2 that hold of a codepoint, the
fifth class being "none of the previous four". -/
def classCount (xs : Char → Bool) (c : Char) : Nat :=
  (if is_whitespace c then 1 else 0) + (if is_id_start xs c then 1 else 0) +
    (if c == '"' then 1 else 0) + (if isPunct c then 1 else 0) +
    (if !(is_whitespace c || is_id_start xs c || c == '"' || isPunct c)
      then 1 else 0)

/-- Claim C6: whenever the external `XID_Start` table excludes the ten
concrete non-identifier codepoints of the grammar (tab, newline, space,
double-quote and the six punctuation codepoints — as the Unicode table does),
exactly one of the five dispatch classes holds of every codepoint: the
dispatch of `eat_token` is a total, mutually exclusive partition of codepoint
space. -/
theorem dispatch_partition (xs : Char → Bool)
    (h1 : xs '\t' = false) (h2 : xs '\n' = false) (h3 : xs ' ' = false)
    (h4 : xs '"' = false) (h5 : xs ';' = false) (h6 : xs '(' = false)
    (h7 : xs ')' = false) (h8 : xs '\x7b' = false) (h9 : xs '\x7d' = false)
    (h10 : xs '!' = false) :
    ∀ c : Char, classCount xs c = 1 := by
  intro c
  cases hw : is_whitespace c with
  | true =>
    have hc : c = '\t' ∨ c = '\n' ∨ c = ' ' := by
      simpa [is_whitespace, or_assoc] using hw
    rcases hc with hc | hc | hc <;> subst hc <;>
      simp only [classCount, is_id_start, isPunct, is_whitespace, h1, h2, h3] <;>
      decide
  | false =>
    cases hid : is_id_start xs c with
    | true =>
      have hc : c = '_' ∨ xs c = true := by
        simpa [is_id_start] using hid
      have hq : (c == '"') = false := by
        rcases hc with hc | hc
        · subst hc; decide
        · cases hq : c == '"' with
          | true =>
            rw [beq_iff_eq.mp hq] at hc
            rw [h4] at hc
            cases hc
          | false => rfl
      have hp : isPunct c = false := by
        rcases hc with hc | hc
        · subst hc; decide
        · cases hp : isPunct c with
          | true =>
            have : c = ';' ∨ c = '(' ∨ c = ')' ∨ c = '\x7b' ∨ c = '\x7d' ∨
                c = '!' := by simpa [isPunct, or_assoc] using hp
            rcases this with h | h | h | h | h | h <;> rw [h] at hc
            · rw [h5] at hc; cases hc
            · rw [h6] at hc; cases hc
            · rw [h7] at hc; cases hc
            · rw [h8] at hc; cases hc
            · rw [h9] at hc; cases hc
            · rw [h10] at hc; cases hc
          | false => rfl
      simp [classCount, hw, hid, hq, hp]
    | false =>
      cases hq : c == '"' with
      | true =>
        have hc : c = '"' := beq_iff_eq.mp hq
        subst hc
        simp only [classCount, is_id_start, isPunct, is_whitespace, h4]
        decide
      | false =>
        cases hp : isPunct c with
        | true =>
          have hc : c = ';' ∨ c = '(' ∨ c = ')' ∨ c = '\x7b' ∨ c = '\x7d' ∨
              c = '!' := by simpa [isPunct, or_assoc] using hp
          rcases hc with hc | hc | hc | hc | hc | hc <;> subst hc <;>
            simp only [classCount, is_id_start, isPunct, is_whitespace,
              h5, h6, h7, h8, h9, h10] <;>
            decide
        | false =>
          simp [classCount, hw, hid, hq, hp]

/-- Witness for `dispatch_partition` with the sample table, at the
identifier-start codepoint `a`. -/
theorem dispatch_partition_witness : classCount xidStartEx 'a' = 1 :=
  dispatch_partition xidStartEx (by decide) (by decide) (by decide) (by decide)
    (by decide) (by decide) (by decide) (by decide) (by decide) (by decide) 'a'

/-! ## Claim C7 -/

theorem utf8Len_append (l1 l2 : List Char) :
    utf8Len (l1 ++ l2) = utf8Len l1 + utf8Len l2 := by
  simp [utf8Len]

theorem utf8Len_takeWhile_add_dropWhile (p : Char → Bool) (l : List Char) :
    utf8Len (l.takeWhile p) + utf8Len (l.dropWhile p) = utf8Len l := by
  rw [← utf8Len_append, List.takeWhile_append_dropWhile]

theorem utf8Size_of_whitespace (ch : Char) (h : is_whitespace ch = true) :
    ch.utf8Size = 1 := by
  have hc : ch = '\t' ∨ ch = '\n' ∨ ch = ' ' := by
    simpa [is_whitespace, or_assoc] using h
  rcases hc with hc | hc | hc <;> subst hc <;> decide

theorem utf8Len_eq_length_of_forall_one :
    ∀ l : List Char, (∀ ch ∈ l, ch.utf8Size = 1) → utf8Len l = l.length := by
  intro l
  induction l with
  | nil => intro _; rfl
  | cons ch rest ih =>
    intro h
    rw [utf8Len_cons, h ch (List.mem_cons_self ch rest),
      ih fun x hx => h x (List.mem_cons_of_mem ch hx)]
    simp [Nat.add_comm]

theorem utf8Len_takeWhile_whitespace (l : List Char) :
    utf8Len (l.takeWhile is_whitespace) = (l.takeWhile is_whitespace).length :=
  utf8Len_eq_length_of_forall_one _ fun ch hch =>
    utf8Size_of_whitespace ch (List.mem_takeWhile_imp hch)

/-- Claim C7 (amended): a token whose first codepoint is whitespace (resp. an
identifier start) consumes exactly the maximal run of whitespace (resp.
identifier-continue) codepoints — what remains is the input after `dropWhile`,
never more — and its `len` is the UTF-8 byte length of the run it spans.  For
whitespace, whose three codepoints are all single-byte, `len` therefore equals
the codepoint run length; for an identifier run it exceeds the codepoint count
when the run contains multi-byte codepoints. -/
theorem eat_token_maximal_munch (xs xc : Char → Bool) (c : Cursor)
    (first : Char) (rest : List Char)
    (hchars : c.chars = first :: rest)
    (hreset : c.initial_len = utf8Len c.chars) :
    (is_whitespace first = true →
      ((c.eat_token xs xc).map fun p => p.1) =
        some (Token.new TokenKind.Whitespace
          (1 + (rest.takeWhile is_whitespace).length)) ∧
      ((c.eat_token xs xc).map fun p => p.2.chars) =
        some (rest.dropWhile is_whitespace)) ∧
    (is_whitespace first = false → is_id_start xs first = true →
      ((c.eat_token xs xc).map fun p => p.1) =
        some (Token.new TokenKind.Identifier
          (first.utf8Size + utf8Len (rest.takeWhile (is_id_continue xc)))) ∧
      ((c.eat_token xs xc).map fun p => p.2.chars) =
        some (rest.dropWhile (is_id_continue xc))) := by
  obtain ⟨il, cs, pv⟩ := c
  simp only at hchars hreset
  subst hchars
  subst hreset
  constructor
  · intro hw
    have hlen : (Cursor.adv_until ⟨utf8Len (first :: rest), rest, first⟩
        is_whitespace).len_consumed = 1 + (rest.takeWhile is_whitespace).length := by
      simp only [Cursor.len_consumed, adv_until_chars, adv_until_initial_len,
        utf8Len_cons]
      have h1 := utf8Len_takeWhile_add_dropWhile is_whitespace rest
      have h2 := utf8Len_takeWhile_whitespace rest
      have h3 := utf8Size_of_whitespace first hw
      omega
    constructor <;>
      simp [Cursor.eat_token, Cursor.adv, hw, Cursor.eat_whitespace, hlen,
        adv_until_chars, Token.new]
  · intro hw hid
    have hlen : (Cursor.adv_until ⟨utf8Len (first :: rest), rest, first⟩
        (is_id_continue xc)).len_consumed =
        first.utf8Size + utf8Len (rest.takeWhile (is_id_continue xc)) := by
      simp only [Cursor.len_consumed, adv_until_chars, adv_until_initial_len,
        utf8Len_cons]
      have h1 := utf8Len_takeWhile_add_dropWhile (is_id_continue xc) rest
      omega
    constructor <;>
      simp [Cursor.eat_token, Cursor.adv, hw, hid, Cursor.eat_id_continue, hlen,
        adv_until_chars, Token.new]

/-- Witness for `eat_token_maximal_munch`: on ` \t a` the whitespace token
spans the full two-codepoint whitespace run (`len` 2, `a` unconsumed), and on
`a b !` (no space) the identifier token spans the full run `ab` (`len` 2,
`!` unconsumed). -/
theorem eat_token_maximal_munch_witness :
    ((((Cursor.new [' ', '\t', 'a']).eat_token xidStartEx xidContEx).map
        fun p => p.1) = some (Token.new TokenKind.Whitespace 2) ∧
      (((Cursor.new [' ', '\t', 'a']).eat_token xidStartEx xidContEx).map
        fun p => p.2.chars) = some ['a']) ∧
    ((((Cursor.new ['a', 'b', '!']).eat_token xidStartEx xidContEx).map
        fun p => p.1) = some (Token.new TokenKind.Identifier 2) ∧
      (((Cursor.new ['a', 'b', '!']).eat_token xidStartEx xidContEx).map
        fun p => p.2.chars) = some ['!']) := by
  constructor
  · obtain ⟨hw, -⟩ := eat_token_maximal_munch xidStartEx xidContEx
      (Cursor.new [' ', '\t', 'a']) ' ' ['\t', 'a'] rfl rfl
    obtain ⟨ha, hb⟩ := hw (by decide)
    constructor
    · rw [ha]; decide
    · rw [hb]; decide
  · obtain ⟨-, hi⟩ := eat_token_maximal_munch xidStartEx xidContEx
      (Cursor.new ['a', 'b', '!']) 'a' ['b', '!'] rfl rfl
    obtain ⟨ha, hb⟩ := hi (by decide) (by decide)
    constructor
    · rw [ha]; decide
    · rw [hb]; decide

/-- Claim C7, counterexample to the codepoint-count reading: `é` (U+00E9) is
an identifier-continue codepoint (in Unicode `XID_Continue`, as the sample
table reflects) of UTF-8 length 2, so the identifier token of `aé` has `len`
3 while the maximal identifier run is 2 codepoints long. -/
theorem identifier_len_ne_run_length :
    tokenize xidStartEx xidContEx ['a', 'é'] =
        [Token.new TokenKind.Identifier 3] ∧
      (3 : Nat) ≠ (['a', 'é'] : List Char).length := by
  decide

/-! ## Claim C8 -/

/-- Claim C8: `peek` on either cursor with no remaining codepoints returns
the NUL sentinel `EOF_CHAR`, and — whenever the external tables exclude NUL,
as the Unicode tables do — the sentinel satisfies none of the classification
predicates: it is not whitespace, not an identifier start, not an identifier
continue, not the double-quote, and not punctuation. -/
theorem peek_sentinel_unclassified (xs xc : Char → Bool)
    (c : Cursor) (c0 : Cursor0)
    (hc : c.chars = []) (hc0 : c0.chars = [])
    (hxs : xs '\x00' = false) (hxc : xc '\x00' = false) :
    c.peek = EOF_CHAR ∧ c0.peek = EOF_CHAR ∧
      is_whitespace EOF_CHAR = false ∧ is_id_start xs EOF_CHAR = false ∧
      is_id_continue xc EOF_CHAR = false ∧ (EOF_CHAR == '"') = false ∧
      isPunct EOF_CHAR = false := by
  refine ⟨?_, ?_, by decide, ?_, ?_, by decide, by decide⟩
  · simp [Cursor.peek, hc]
  · simp [Cursor0.peek, hc0]
  · simp only [is_id_start, EOF_CHAR, hxs]
    decide
  · simp only [is_id_continue, EOF_CHAR, hxc]

/-- Witness for `peek_sentinel_unclassified` on freshly constructed cursors
over the empty input, with the sample tables. -/
theorem peek_sentinel_unclassified_witness :
    (Cursor.new []).peek = EOF_CHAR ∧ (Cursor0.new []).peek = EOF_CHAR ∧
      is_whitespace EOF_CHAR = false ∧
      is_id_start xidStartEx EOF_CHAR = false ∧
      is_id_continue xidContEx EOF_CHAR = false ∧
      (EOF_CHAR == '"') = false ∧ isPunct EOF_CHAR = false :=
  peek_sentinel_unclassified xidStartEx xidContEx (Cursor.new [])
    (Cursor0.new []) rfl rfl (by decide) (by decide)

/-! ## Claim C9 -/

/-- Claim C9: `peek` is total — its embedded body has no failing operation —
and never mutates the cursor.  For both implementations the state coming out
of the body (`peekSt`) is the receiver unchanged, the returned value is
`peek`'s, and a `peek` followed by `adv`, `is_empty`, `adv_until` or
`len_consumed` behaves exactly as that operation alone. -/
theorem peek_no_mutation (c : Cursor) (c0 : Cursor0) (p : Char → Bool) :
    c.peekSt.1 = c.peek ∧ c.peekSt.2 = c ∧
      c.peekSt.2.adv = c.adv ∧ c.peekSt.2.is_empty = c.is_empty ∧
      c.peekSt.2.adv_until p = c.adv_until p ∧
      c.peekSt.2.len_consumed = c.len_consumed ∧
      c0.peekSt.1 = c0.peek ∧ c0.peekSt.2 = c0 := by
  obtain ⟨il, cs, pv⟩ := c
  obtain ⟨l0, cs0, pv0⟩ := c0
  cases cs <;> cases cs0 <;>
    exact ⟨rfl, rfl, rfl, rfl, rfl, rfl, rfl, rfl⟩

/-! ## Claim C10 -/

theorem utf8Len_beq_zero (l : List Char) :
    (utf8Len l == 0) = (l.length == 0) := by
  cases l with
  | nil => rfl
  | cons ch rest =>
    have h1 : utf8Len (ch :: rest) ≠ 0 := by
      rw [utf8Len_cons]
      have := Char.utf8Size_pos ch
      omega
    have e1 : (utf8Len (ch :: rest) == 0) = false := by
      simpa using h1
    have e2 : ((ch :: rest).length == 0) = false := by
      simp
    rw [e1, e2]

/-- When the `len` field of the `src/cursor.rs` cursor equals its remaining
codepoint count, its `adv_until` loop terminates within `length + 1`
iterations and leaves exactly the state the loop body dictates. -/
theorem advUntilFuel_of_len_eq_length (p : Char → Bool) :
    ∀ (l : List Char) (fuel : Nat) (prev : Char), l.length < fuel →
      Cursor0.advUntilFuel p fuel ⟨l.length, l, prev⟩ =
        some ⟨(advUntilGo p l prev).1.length, (advUntilGo p l prev).1,
              (advUntilGo p l prev).2⟩ := by
  intro l
  induction l with
  | nil =>
    intro fuel prev hf
    cases fuel with
    | zero => omega
    | succ fuel =>
      simp [Cursor0.advUntilFuel, Cursor0.is_empty, advUntilGo]
  | cons ch rest ih =>
    intro fuel prev hf
    cases fuel with
    | zero => omega
    | succ fuel =>
      cases hp : p ch with
      | true =>
        have hr := ih fuel ch (by simpa using hf)
        simp [Cursor0.advUntilFuel, Cursor0.is_empty, Cursor0.peek,
          Cursor0.adv, hp, advUntilGo, hr]
      | false =>
        simp [Cursor0.advUntilFuel, Cursor0.is_empty, Cursor0.peek, hp,
          advUntilGo]

theorem peek0_eq_peek (n : Nat) (l : List Char) (pv : Char) (m : Nat)
    (pv' : Char) :
    Cursor0.peek ⟨n, l, pv⟩ = Cursor.peek ⟨m, l, pv'⟩ := by
  cases l <;> rfl

theorem adv0_fst_eq_adv_fst (n : Nat) (l : List Char) (pv : Char) (m : Nat)
    (pv' : Char) :
    (Cursor0.adv ⟨n, l, pv⟩).1 = (Cursor.adv ⟨m, l, pv'⟩).1 := by
  cases l <;> rfl

/-- Bisimulation of the two cursors along any trace, from states whose
`chars` and `prev` agree and whose `src/cursor.rs` `len` counter equals the
remaining codepoint count: the `src/cursor.rs` run never diverges, and both
runs keep equal `chars` and `prev` (the `len` counter staying equal to the
codepoint count). -/
theorem runOps_sim :
    ∀ (ops : List COp) (l : List Char) (prev : Char) (il : Nat),
      Cursor0.runOps ops ⟨l.length, l, prev⟩ =
        some ⟨(Cursor.runOps ops ⟨il, l, prev⟩).chars.length,
              (Cursor.runOps ops ⟨il, l, prev⟩).chars,
              (Cursor.runOps ops ⟨il, l, prev⟩).prev⟩ := by
  intro ops
  induction ops with
  | nil =>
    intro l prev il
    rfl
  | cons op ops ih =>
    intro l prev il
    cases op with
    | adv =>
      cases l with
      | nil =>
        simpa [Cursor0.runOps, Cursor.runOps, Cursor0.adv, Cursor.adv]
          using ih [] prev il
      | cons ch rest =>
        simpa [Cursor0.runOps, Cursor.runOps, Cursor0.adv, Cursor.adv]
          using ih rest ch il
    | advUntil p =>
      have ha := advUntilFuel_of_len_eq_length p l (l.length + 1) prev
        (Nat.lt_succ_self _)
      have hcadv : Cursor.adv_until ⟨il, l, prev⟩ p =
          ⟨il, (advUntilGo p l prev).1, (advUntilGo p l prev).2⟩ := rfl
      simp only [Cursor0.runOps, Cursor.runOps, Cursor0.adv_until, ha, hcadv]
      exact ih _ _ il

/-- Claim C10 (amended): over any input all of whose codepoints are
single-byte in UTF-8 (in particular any ASCII input), the two cursor
implementations are observationally equivalent: after any sequence of
`adv` / `adv_until` calls (`peek` is stateless, see `peek_no_mutation`), no
`adv_until` of `src/cursor.rs` diverges, and the two cursors' remaining
codepoints, `is_empty`, `peek` and next-`adv` answers all agree. -/
theorem cursors_agree_on_single_byte (input : List Char) (ops : List COp)
    (h : ∀ ch ∈ input, ch.utf8Size = 1) :
    ((Cursor0.runOps ops (Cursor0.new input)).map fun c => c.chars) =
        some (Cursor.runOps ops (Cursor.new input)).chars ∧
      ((Cursor0.runOps ops (Cursor0.new input)).map Cursor0.is_empty) =
        some (Cursor.runOps ops (Cursor.new input)).is_empty ∧
      ((Cursor0.runOps ops (Cursor0.new input)).map Cursor0.peek) =
        some (Cursor.runOps ops (Cursor.new input)).peek ∧
      ((Cursor0.runOps ops (Cursor0.new input)).map fun c => c.adv.1) =
        some (Cursor.runOps ops (Cursor.new input)).adv.1 := by
  have hlen : utf8Len input = input.length :=
    utf8Len_eq_length_of_forall_one input h
  have hnew : Cursor0.new input = (⟨input.length, input, '\x00'⟩ : Cursor0) := by
    simp [Cursor0.new, hlen]
  have hnew1 : Cursor.new input = (⟨utf8Len input, input, '\x00'⟩ : Cursor) := rfl
  rw [hnew, hnew1, runOps_sim ops input '\x00' (utf8Len input)]
  set R := Cursor.runOps ops ⟨utf8Len input, input, '\x00'⟩ with hR
  obtain ⟨ril, rcs, rpv⟩ := R
  refine ⟨rfl, ?_, ?_, ?_⟩
  · simp only [Option.map_some]
    show some (rcs.length == 0) = some (utf8Len rcs == 0)
    rw [utf8Len_beq_zero]
  · simp only [Option.map_some]
    exact congrArg some (peek0_eq_peek _ rcs _ _ _)
  · simp only [Option.map_some]
    exact congrArg some (adv0_fst_eq_adv_fst _ rcs _ _ _)

/-- Witness for `cursors_agree_on_single_byte` on the ASCII input `abc` with
one `adv` followed by an `adv_until` that skips over `b`. -/
theorem cursors_agree_on_single_byte_witness :
    ((Cursor0.runOps [COp.adv, COp.advUntil fun ch => ch == 'b']
          (Cursor0.new ['a', 'b', 'c'])).map fun c => c.chars) =
        some (Cursor.runOps [COp.adv, COp.advUntil fun ch => ch == 'b']
          (Cursor.new ['a', 'b', 'c'])).chars ∧
      ((Cursor0.runOps [COp.adv, COp.advUntil fun ch => ch == 'b']
          (Cursor0.new ['a', 'b', 'c'])).map Cursor0.is_empty) =
        some (Cursor.runOps [COp.adv, COp.advUntil fun ch => ch == 'b']
          (Cursor.new ['a', 'b', 'c'])).is_empty ∧
      ((Cursor0.runOps [COp.adv, COp.advUntil fun ch => ch == 'b']
          (Cursor0.new ['a', 'b', 'c'])).map Cursor0.peek) =
        some (Cursor.runOps [COp.adv, COp.advUntil fun ch => ch == 'b']
          (Cursor.new ['a', 'b', 'c'])).peek ∧
      ((Cursor0.runOps [COp.adv, COp.advUntil fun ch => ch == 'b']
          (Cursor0.new ['a', 'b', 'c'])).map fun c => c.adv.1) =
        some (Cursor.runOps [COp.adv, COp.advUntil fun ch => ch == 'b']
          (Cursor.new ['a', 'b', 'c'])).adv.1 :=
  cursors_agree_on_single_byte ['a', 'b', 'c']
    [COp.adv, COp.advUntil fun ch => ch == 'b'] (by decide)

/-- Claim C10, counterexample to unconditional equivalence: on the two-byte
codepoint `¢`, after a single `adv` on each, the `src/cursor.rs` cursor
reports nonempty while the `src/lexer/cursor.rs` cursor reports empty. -/
theorem cursors_disagree_multibyte :
    (Cursor0.new ['¢']).adv.2.is_empty ≠ (Cursor.new ['¢']).adv.2.is_empty := by
  decide

end Rc
